import Mathlib

/-!
Shallow embedding of the weighted round-robin policy of the coredns
loadbalance plugin (plugin/loadbalance: handler.go, weighted.go).

Pure Go functions become Lean functions; the mutable `weightedRR` state is
passed explicitly.  Go panics (out-of-range slice index, `rand.Intn` with a
non-positive bound, nil-pointer dereference) are modelled by `Option`:
`none` means the corresponding Go call panics.  Machine integers (`uint8`
counters and weights) are `Nat` with an explicit `% 256` where Go wraps.
The single pseudo-random generator `weightedRR.rn` is modelled by an
oracle: each call of `rn.Intn (n)` consumes one oracle value `v` and
yields `v % n` (for genuine draws `v < n`, the value itself).
-/

namespace LoadBalance

/-- IP address value (net.IP): the list of its byte values.  The model
keeps every address in normalized form, so `net.IP.Equal` is plain
equality of the byte lists. -/
structure IP where
  bytes : List Nat
deriving DecidableEq, Repr

/-- Convenience constructor for a dotted-quad IPv4 value. -/
def ipv4 (a b c d : Nat) : IP :=
  ⟨[a, b, c, d]⟩

/-- ASCII whitespace recognised by `strings.TrimSpace` / `strings.Fields`
(the Unicode space classes beyond these never occur in the claims). -/
def isSpaceChar (c : Char) : Bool :=
  c = ' ' || c = '\t' || c = '\n' || c = '\r'

/-- Drop leading whitespace characters. -/
def dropLeadingSpace : List Char → List Char
  | [] => []
  | c :: cs => if isSpaceChar c then dropLeadingSpace cs else c :: cs

/-- strings.TrimSpace on a line: drop whitespace from both ends. -/
def trimSpace (l : List Char) : List Char :=
  (dropLeadingSpace (dropLeadingSpace l.reverse).reverse)

/-- Accumulator-based splitting of a line into whitespace-separated
tokens; `fieldsOf` below is Go's `strings.Fields`. -/
def fieldsAux : List Char → List Char → List (List Char)
  | [], acc => if acc.isEmpty then [] else [acc.reverse]
  | c :: cs, acc =>
    if isSpaceChar c then
      if acc.isEmpty then fieldsAux cs [] else acc.reverse :: fieldsAux cs []
    else
      fieldsAux cs (c :: acc)

/-- strings.Fields: the whitespace-separated tokens of a line. -/
def fieldsOf (l : List Char) : List (List Char) :=
  fieldsAux l []

/-- Split a character list at every occurrence of the separator. -/
def splitOnCharAux (sep : Char) : List Char → List Char → List (List Char)
  | [], acc => [acc.reverse]
  | c :: cs, acc =>
    if c = sep then acc.reverse :: splitOnCharAux sep cs []
    else splitOnCharAux sep cs (c :: acc)

/-- Split a character list on a separator character. -/
def splitOnChar (sep : Char) (l : List Char) : List (List Char) :=
  splitOnCharAux sep l []

/-- The lines delivered by `bufio.Scanner` over the file contents
(split at every newline; the scanner's final empty fragment is blank and
is in any case ignored by the parser). -/
def splitLines (l : List Char) : List (List Char) :=
  splitOnChar '\n' l

/-- Decimal digit value of a character, if it is a digit. -/
def digitVal (c : Char) : Option Nat :=
  if '0' ≤ c ∧ c ≤ '9' then some (c.toNat - '0'.toNat) else none

/-- Value of a non-empty all-digit token (auxiliary accumulator form). -/
def decNatAux : List Char → Nat → Option Nat
  | [], acc => some acc
  | c :: cs, acc =>
    match digitVal c with
    | none => none
    | some d => decNatAux cs (acc * 10 + d)

/-- Value of a decimal token: `none` unless the token is non-empty and
consists of digits only. -/
def decNat : List Char → Option Nat
  | [] => none
  | c :: cs => decNatAux (c :: cs) 0

/-- strconv.ParseUint (tok, 10, 8): a non-empty digit string whose value
fits an unsigned byte; no sign or separator is permitted, values above
255 are an overflow error. -/
def parseUint8 (tok : List Char) : Option Nat :=
  match decNat tok with
  | none => none
  | some n => if n ≤ 255 then some n else none

/-- One dotted-quad field of an IPv4 literal: one to three digits, value
at most 255, no leading zero. -/
def v4Field (tok : List Char) : Option Nat :=
  match decNat tok with
  | none => none
  | some n =>
    if tok.length ≤ 3 ∧ (tok.head? = some '0' → tok.length = 1) ∧ n ≤ 255 then
      some n
    else none

/-- Modelled from the spec: `net.ParseIP` (Go standard library, outside
this repository) validates "valid IPv4 or IPv6 literals".  Dotted-quad
IPv4 literals are modelled faithfully; IPv6 literals are omitted from the
model (no claim depends on an IPv6 literal in the weight file), so a
token containing a colon is simply not an IP literal here. -/
def parseIP (tok : List Char) : Option IP :=
  match (splitOnChar '.' tok).map v4Field with
  | [some a, some b, some c, some d] => some (ipv4 a b c d)
  | _ => none

/-- Weight assigned to an address (weightItem in handler.go); `value` is
a Go uint8, kept in [0, 255] by the parser. -/
structure WeightItem where
  address : IP
  value : Nat
deriving DecidableEq, Repr

/-- Selector state machine owned by a domain (topIPupdater in
handler.go): the deterministic cursor/counter variant or the randomized
weight-sum variant.  `count` is a Go uint8. -/
inductive TopIPUpdater where
  | determininsticWRR (index : Nat) (count : Nat)
  | randomizedWRR (wsum : Nat)
deriving DecidableEq, Repr

/-- Per-domain state (domain in handler.go): the weight list, the
currently expected top IP (`none` is Go's nil net.IP zero value, which
`net.IP.Equal` never matches) and the selector. -/
structure Domain where
  weights : List WeightItem
  topIP : Option IP
  updater : TopIPUpdater
deriving DecidableEq, Repr

/-- Fresh `&domain{}` as built by parseWeights: empty weight list, nil
top IP, and the selector variant chosen by the isRandom flag. -/
def freshDomain (isRandom : Bool) : Domain :=
  { weights := []
    topIP := none
    updater :=
      if isRandom then TopIPUpdater.randomizedWRR 0
      else TopIPUpdater.determininsticWRR 0 0 }

/-- The five parse failures of weightedRR.parseWeights, tagged with the
offending token or line. -/
inductive ParseErr where
  | wrongDomain (tok : String)
  | wrongIP (tok : String)
  | wrongWeight (tok : String)
  | missingDomain
  | badLine (line : String)
deriving DecidableEq, Repr

/-- Go map lookup on the domain table, modelled as an association list
keyed by the normalized domain name. -/
def lookupD : List (String × Domain) → String → Option Domain
  | [], _ => none
  | (k, d) :: rest, key => if k = key then some d else lookupD rest key

/-- Replace the domain stored under a key (Go mutates the map entry
through the `curd` pointer). -/
def updateD : List (String × Domain) → String → Domain → List (String × Domain)
  | [], _, _ => []
  | (k, d) :: rest, key, d' =>
    if k = key then (k, d') :: rest else (k, d) :: updateD rest key d'

/-- Append a weight item to the current domain's list (the
`curd.weights = append(curd.weights, witem)` line). -/
def appendWeight (ds : List (String × Domain)) (key : String) (w : WeightItem) :
    List (String × Domain) :=
  match lookupD ds key with
  | none => ds
  | some d => updateD ds key { d with weights := d.weights ++ [w] }

/-- Parser state while scanning the weight file: the domain map built so
far and the current domain key (Go's `curd` pointer, `none` before the
first header line). -/
structure ParseSt where
  domains : List (String × Domain)
  curd : Option String
deriving DecidableEq, Repr

/-- One non-blank, non-comment line of weightedRR.parseWeights: a
one-token domain header (rejected if it parses as an IP literal,
normalized with a trailing dot, resuming an already-seen domain), a
two-token IP/weight line (IP validated first, then the weight, and only
then the missing-domain check), or a malformed line. -/
def lineStep (isRandom : Bool) (st : ParseSt) (l : List Char) :
    Except ParseErr ParseSt :=
  match fieldsOf l with
  | [d] =>
    if (parseIP d).isSome then
      Except.error (ParseErr.wrongDomain (String.mk d))
    else
      let dname := if d.getLast? = some '.' then d else d ++ ['.']
      let key := String.mk dname
      match lookupD st.domains key with
      | some _ => Except.ok { st with curd := some key }
      | none =>
        Except.ok
          { domains := st.domains ++ [(key, freshDomain isRandom)]
            curd := some key }
  | [a, wt] =>
    match parseIP a with
    | none => Except.error (ParseErr.wrongIP (String.mk a))
    | some ip =>
      match parseUint8 wt with
      | none => Except.error (ParseErr.wrongWeight (String.mk wt))
      | some v =>
        match st.curd with
        | none => Except.error ParseErr.missingDomain
        | some key =>
          Except.ok { st with domains := appendWeight st.domains key ⟨ip, v⟩ }
  | _ => Except.error (ParseErr.badLine (String.mk l))

/-- The effective lines of the weight file: every raw line trimmed, with
blank lines and comment lines (first character '#') skipped, exactly as
the scan loop of parseWeights does before its field switch. -/
def effLines (content : String) : List (List Char) :=
  ((splitLines content.data).map trimSpace).filter
    (fun l =>
      match l with
      | [] => false
      | c :: _ => !(decide (c = '#')))

/-- Run the parse loop over the effective lines, stopping at the first
error; the state built so far stays visible (Go mutates `w.domains` in
place and returns mid-loop). -/
def parseWeightsAux (isRandom : Bool) : ParseSt → List (List Char) →
    ParseSt × Option ParseErr
  | st, [] => (st, none)
  | st, l :: ls =>
    match lineStep isRandom st l with
    | Except.error e => (st, some e)
    | Except.ok st' => parseWeightsAux isRandom st' ls

/-- weightedRR.parseWeights: reset the domain map and scan the file
contents line by line; returns the (possibly partially built) domain map
together with the first error, if any. -/
def parseWeights (isRandom : Bool) (content : String) : ParseSt × Option ParseErr :=
  parseWeightsAux isRandom ⟨[], none⟩ (effLines content)

/-- Cursor/counter state of the deterministic selector. -/
structure DetSt where
  index : Nat
  count : Nat
deriving DecidableEq, Repr

/-- determininsticWRR.nextTopIP (weighted.go 33-49) as one step on the
cursor/counter pair: the top IP is the address at the cursor (indexing an
empty weight list panics, hence `none`); the uint8 counter is bumped and,
once it reaches the weight at the cursor, reset while the cursor advances
and wraps past the end of the list. -/
def detStep (ws : List WeightItem) (s : DetSt) : Option (IP × DetSt) :=
  match ws[s.index]? with
  | none => none
  | some wItem =>
    let cnt1 := (s.count + 1) % 256
    if cnt1 = wItem.value then
      some (wItem.address, ⟨if s.index + 1 < ws.length then s.index + 1 else 0, 0⟩)
    else
      some (wItem.address, ⟨s.index, cnt1⟩)

/-- The walk of randomizedWRR.nextTopIP (weighted.go 51-63): accumulate a
running sum over the weight list, stopping at the first entry whose
partial sum exceeds the drawn value; if the loop runs out, the last
visited entry stays selected; on an empty list the loop variable is nil
and the final dereference panics (`none`).  Returns the chosen entry
together with its position in the list. -/
def rselect (v : Nat) : List WeightItem → Nat → Nat → Option (Nat × WeightItem)
  | [], _, _ => none
  | [wItem], _, i => some (i, wItem)
  | wItem :: next :: rest, psum, i =>
    if v < psum + wItem.value then some (i, wItem)
    else rselect v (next :: rest) (psum + wItem.value) (i + 1)

/-- domain.nextTopIP dispatch: run the domain's selector one step.  The
randomized variant draws `rn.Intn (wsum)`, which panics when the weight
sum is zero; `v` is the oracle value of the draw (`v % wsum` in [0,wsum)
and equal to `v` for genuine draws `v < wsum`). -/
def Domain.nextTopIP (d : Domain) (v : Nat) : Option Domain :=
  match d.updater with
  | TopIPUpdater.determininsticWRR i c =>
    match detStep d.weights ⟨i, c⟩ with
    | none => none
    | some (top, s') =>
      some { d with topIP := some top
                    updater := TopIPUpdater.determininsticWRR s'.index s'.count }
  | TopIPUpdater.randomizedWRR wsum =>
    if wsum = 0 then none
    else
      match rselect (v % wsum) d.weights 0 0 with
      | none => none
      | some (_, wItem) => some { d with topIP := some wItem.address }

/-- Modelled from the spec: the crypto/md5 content digest (outside this
repository) is consumed only through equality comparison of the digests
of raw file contents, so it is modelled as the content itself. -/
def md5Sum (s : String) : String :=
  s

/-- The weightedRR state the claims touch: the domain table, the digest
of the last load (`none` is the zero [16]byte value, which no content
digest equals) and the selector-variant flag.  File name, reload period,
mutex and the generator live outside the model. -/
structure WeightedRR where
  domains : List (String × Domain)
  md5sum : Option String
  isRandom : Bool
deriving DecidableEq, Repr

/-- weightedRR.readWeightFile (weighted.go 194-218), after a successful
read of the file bytes: compare the content digest with the stored one
and bail out unchanged when equal; otherwise overwrite the stored digest
and parse, keeping whatever domain map the parse built. -/
def readWeightFile (w : WeightedRR) (content : String) :
    Bool × Option ParseErr × WeightedRR :=
  if w.md5sum = some (md5Sum content) then
    (false, none, w)
  else
    let (st, err) := parseWeights w.isRandom content
    (true, err, { w with md5sum := some (md5Sum content), domains := st.domains })

/-- Sum of the weights of a list (the per-domain wsum accumulation of
updateWeights). -/
def totalWeight (ws : List WeightItem) : Nat :=
  (ws.map WeightItem.value).sum

/-- The descending comparison handed to sort.Slice in updateWeights.
Go's sort.Slice guarantees the comparator order but explicitly not
stability; its exact algorithm (insertion sort below 12 elements,
pdqsort above) lies outside this repository.  The model fixes insertion
sort; no settled claim depends on the choice, because every settled
claim reaches the sort only with an empty weight list or not at all. -/
def sortWeights : List WeightItem → List WeightItem
  | [] => []
  | w :: ws => insertDesc w (sortWeights ws)
where
  insertDesc (w : WeightItem) : List WeightItem → List WeightItem
    | [] => [w]
    | x :: xs => if x.value < w.value then w :: x :: xs else x :: insertDesc w xs

/-- The per-domain tail of weightedRR.updateWeights (weighted.go
174-188): sort the weight list, accumulate the weight sum into the
randomized selector, then run nextTopIP once to set up the first
expected top IP.  `rnd` is the draw oracle, `k` the number of draws made
so far; a panicking nextTopIP aborts everything (`none`). -/
def initDomains (rnd : Nat → Nat) : Nat → List (String × Domain) →
    Option (List (String × Domain))
  | _, [] => some []
  | k, (key, d) :: rest =>
    let sorted := sortWeights d.weights
    let d1 := { d with weights := sorted }
    let d2 :=
      match d1.updater with
      | TopIPUpdater.randomizedWRR ws0 =>
        { d1 with updater := TopIPUpdater.randomizedWRR (ws0 + totalWeight sorted) }
      | _ => d1
    match d2.nextTopIP (rnd k) with
    | none => none
    | some d3 => (initDomains rnd (k + 1) rest).map (fun ds => (key, d3) :: ds)

/-- weightedRR.updateWeights (weighted.go 164-191): read and parse the
file; on an error or unchanged contents return immediately, otherwise
sort every domain's weights, accumulate the randomized weight sums and
set up each first expected top IP.  `none` is a panic during that last
step. -/
def updateWeights (w : WeightedRR) (content : String) (rnd : Nat → Nat) :
    Option (Option ParseErr × WeightedRR) :=
  let (isChanged, err, w1) := readWeightFile w content
  if err.isSome || !isChanged then some (err, w1)
  else
    match initDomains rnd 0 w1.domains with
    | none => none
    | some ds => some (none, { w1 with domains := ds })

/-- Answer record, opaque except for its type tag and (for address
records) its decoded IP value; `data` keeps distinct records distinct. -/
inductive RR where
  | cname (data : String)
  | a (ip : IP) (data : String)
  | aaaa (ip : IP) (data : String)
  | mx (data : String)
  | other (rrtype : Nat) (data : String)
deriving DecidableEq, Repr

/-- The four buckets built by the classification loop of
weightedRR.weightedRoundRobin. -/
structure Buckets where
  cname : List RR
  address : List RR
  mx : List RR
  rest : List RR
deriving DecidableEq, Repr

/-- The classification loop of weightedRoundRobin (weighted.go 70-81):
dispatch every record on its type tag into the CNAME, A/AAAA, MX or
default bucket, keeping each bucket in input order. -/
def classifyRRs : List RR → Buckets
  | [] => ⟨[], [], [], []⟩
  | r :: rs =>
    let b := classifyRRs rs
    match r with
    | RR.cname _ => { b with cname := r :: b.cname }
    | RR.a _ _ => { b with address := r :: b.address }
    | RR.aaaa _ _ => { b with address := r :: b.address }
    | RR.mx _ => { b with mx := r :: b.mx }
    | RR.other _ _ => { b with rest := r :: b.rest }

/-- The match test of the setTopRecord scan loop: an A or AAAA record
whose address equals the expected top IP (a nil expected IP matches
nothing, as with net.IP.Equal). -/
def matchesTop (expTop : Option IP) (r : RR) : Bool :=
  match r with
  | RR.a ip _ => decide (expTop = some ip)
  | RR.aaaa ip _ => decide (expTop = some ip)
  | _ => false

/-- The swap `address[0], address[itop] = address[itop], address[0]`. -/
def swapTop (l : List RR) (i : Nat) : List RR :=
  match l[0]?, l[i]? with
  | some r0, some ri => (l.set 0 ri).set i r0
  | _, _ => l

/-- The scan loop of setTopRecord (label L, weighted.go 107-123):
position of the first A/AAAA record of the address bucket whose address
equals the expected top IP. -/
def findTopIdx (expTop : Option IP) : List RR → Option Nat
  | [] => none
  | r :: rs =>
    if matchesTop expTop r then some 0 else (findTopIdx expTop rs).map (· + 1)

/-- weightedRR.setTopRecord (weighted.go 95-138): look the query name up
in the domain table; with no entry or an empty weight list report no
change; otherwise scan the address bucket for the first record matching
the expected top IP, report no change if there is none, else swap it to
the front (when not already there) and advance the domain's selector.
Returns (changed, address bucket, state); `none` is a selector panic. -/
def setTopRecord (w : WeightedRR) (qname : String) (address : List RR) (v : Nat) :
    Option (Bool × List RR × WeightedRR) :=
  match lookupD w.domains qname with
  | none => some (false, address, w)
  | some curd =>
    if curd.weights.isEmpty then some (false, address, w)
    else
      match findTopIdx curd.topIP address with
      | none => some (false, address, w)
      | some itop =>
        let address' := if itop = 0 then address else swapTop address itop
        match curd.nextTopIP v with
        | none => none
        | some curd' =>
          some (true, address', { w with domains := updateD w.domains qname curd' })

/-- weightedRR.weightedRoundRobin (weighted.go 65-92): classify the
answer, return it untouched when it has no address records or when
setTopRecord reports no change, and otherwise emit CNAME records, then
the rest, then the (reordered) address records, then MX records. -/
def weightedRoundRobin (w : WeightedRR) (qname : String) (inRRs : List RR)
    (v : Nat) : Option (List RR × WeightedRR) :=
  let b := classifyRRs inRRs
  if b.address.isEmpty then some (inRRs, w)
  else
    match setTopRecord w qname b.address v with
    | none => none
    | some (false, _, w') => some (inRRs, w')
    | some (true, addr', w') => some (b.cname ++ b.rest ++ addr' ++ b.mx, w')

/-- The k-th call of the deterministic selector run from state `s`
(output IP and state after the call), `none` once any call panics. -/
def detNth (ws : List WeightItem) (s : DetSt) : Nat → Option (IP × DetSt)
  | 0 => detStep ws s
  | k + 1 =>
    match detStep ws s with
    | none => none
    | some (_, s') => detNth ws s' k

/-- Cumulative weight of the first `i` entries of a weight list. -/
def cumW : List WeightItem → Nat → Nat
  | _, 0 => 0
  | [], _ + 1 => 0
  | wItem :: rest, i + 1 => wItem.value + cumW rest i

/-- The entry of a weight list covering position `p` of the weight
blocks: the first entry whose cumulative weight exceeds `p`.  This is
the specification-side description of both selectors' block layout. -/
def entryAt : List WeightItem → Nat → Option WeightItem
  | [], _ => none
  | wItem :: rest, p =>
    if p < wItem.value then some wItem else entryAt rest (p - wItem.value)

/-- Index form of `entryAt`: which entry covers position `p`. -/
def entryIdx : List WeightItem → Nat → Option Nat
  | [], _ => none
  | wItem :: rest, p =>
    if p < wItem.value then some 0
    else (entryIdx rest (p - wItem.value)).map (· + 1)

/-- Record is a CNAME record. -/
def isCNAMEb : RR → Bool
  | RR.cname _ => true
  | _ => false

/-- Record is an address (A or AAAA) record. -/
def isAddressb : RR → Bool
  | RR.a _ _ => true
  | RR.aaaa _ _ => true
  | _ => false

/-- Record is an MX record. -/
def isMXb : RR → Bool
  | RR.mx _ => true
  | _ => false

/-- Record falls into the default bucket of the classification loop. -/
def isRestb : RR → Bool
  | RR.other _ _ => true
  | _ => false

/-- A reload whose content digest equals the stored digest is a no-op:
no error, no state change at all. -/
theorem updateWeights_noop (w : WeightedRR) (content : String) (rnd : Nat → Nat)
    (h : w.md5sum = some (md5Sum content)) :
    updateWeights w content rnd = some (none, w) := by
  simp [updateWeights, readWeightFile, h]

/-- The classification loop builds exactly the four type-filtered
sublists of the input, each in input order. -/
theorem classifyRRs_eq_filters (rrs : List RR) :
    classifyRRs rrs =
      ⟨rrs.filter isCNAMEb, rrs.filter isAddressb,
       rrs.filter isMXb, rrs.filter isRestb⟩ := by
  induction rrs with
  | nil => rfl
  | cons r rs ih =>
    cases r <;>
      simp [classifyRRs, ih, List.filter, isCNAMEb, isAddressb, isMXb, isRestb]

/-- A scan over records none of which matches finds no index. -/
theorem findTopIdx_eq_none (t : Option IP) (l : List RR)
    (h : ∀ r ∈ l, matchesTop t r = false) : findTopIdx t l = none := by
  induction l with
  | nil => rfl
  | cons r rs ih =>
    have hr := h r (by simp)
    simp [findTopIdx, hr, ih (fun x hx => h x (by simp [hx]))]

end LoadBalance

namespace LoadBalance

/-- C9: for every refresh in which the source file's raw bytes are
identical to those of the last load (equal content digest), the refresh
returns no error, performs no table replacement, and leaves the domain
map, every domain's weight list, every selector's internal state and
every expected top IP exactly unchanged: `updateWeights` returns the
input state itself. -/
theorem C9_identical_content_refresh_is_noop (w : WeightedRR) (content : String)
    (rnd : Nat → Nat) (h : w.md5sum = some (md5Sum content)) :
    updateWeights w content rnd = some (none, w) :=
  updateWeights_noop w content rnd h

/-- Witness for C9 at a concrete state whose stored digest matches the
re-supplied content. -/
theorem C9_witness :
    (WeightedRR.mk [(("a."), freshDomain false)] (some (md5Sum ("x"))) false).md5sum
        = some (md5Sum ("x"))
    ∧ updateWeights
        (WeightedRR.mk [(("a."), freshDomain false)] (some (md5Sum ("x"))) false)
        ("x") (fun _ => 0)
      = some (none, WeightedRR.mk [(("a."), freshDomain false)] (some (md5Sum ("x"))) false) :=
  ⟨rfl, C9_identical_content_refresh_is_noop _ _ _ rfl⟩

/-- C10: when a refresh reads content whose digest differs from the
stored one, the stored digest is overwritten with the new digest and the
domain map is rebuilt from scratch even when the parse fails: the final
state carries the new digest and exactly the partially built map of the
failed parse (a function of the new content alone), and a subsequent
refresh of the same still-invalid bytes compares equal to the stored
digest and returns no error and no change — the previous table is not
restored. -/
theorem C10_failed_parse_keeps_digest_and_partial_map (w : WeightedRR)
    (content : String) (rnd : Nat → Nat) (e : ParseErr)
    (hne : ¬ w.md5sum = some (md5Sum content))
    (he : (parseWeights w.isRandom content).2 = some e) :
    updateWeights w content rnd =
      some (some e,
        { w with md5sum := some (md5Sum content)
                 domains := (parseWeights w.isRandom content).1.domains })
    ∧ ∀ rnd2 : Nat → Nat,
        updateWeights
          { w with md5sum := some (md5Sum content)
                   domains := (parseWeights w.isRandom content).1.domains }
          content rnd2 =
        some (none,
          { w with md5sum := some (md5Sum content)
                   domains := (parseWeights w.isRandom content).1.domains }) := by
  constructor
  · simp only [updateWeights, readWeightFile, if_neg hne]
    rcases hp : parseWeights w.isRandom content with ⟨st, err⟩
    rw [hp] at he
    simp only at he
    simp [he, hp]
  · intro rnd2
    exact updateWeights_noop _ _ _ rfl

/-- Witness for C10: a state loaded from good content refreshed against
content whose only line is an IP/weight pair with no domain header. -/
theorem C10_witness :
    (¬ (WeightedRR.mk [] (some (md5Sum ("d.\n"))) false).md5sum
        = some (md5Sum ("1.2.3.4 5")))
    ∧ (parseWeights false ("1.2.3.4 5")).2 = some ParseErr.missingDomain
    ∧ (updateWeights (WeightedRR.mk [] (some (md5Sum ("d.\n"))) false)
          ("1.2.3.4 5") (fun _ => 0) =
        some (some ParseErr.missingDomain,
          { WeightedRR.mk [] (some (md5Sum ("d.\n"))) false with
              md5sum := some (md5Sum ("1.2.3.4 5"))
              domains := (parseWeights false ("1.2.3.4 5")).1.domains })
      ∧ ∀ rnd2 : Nat → Nat,
          updateWeights
            { WeightedRR.mk [] (some (md5Sum ("d.\n"))) false with
                md5sum := some (md5Sum ("1.2.3.4 5"))
                domains := (parseWeights false ("1.2.3.4 5")).1.domains }
            ("1.2.3.4 5") rnd2 =
          some (none,
            { WeightedRR.mk [] (some (md5Sum ("d.\n"))) false with
                md5sum := some (md5Sum ("1.2.3.4 5"))
                domains := (parseWeights false ("1.2.3.4 5")).1.domains })) :=
  ⟨by decide, by decide,
   C10_failed_parse_keeps_digest_and_partial_map _ _ _ _ (by decide) (by decide)⟩

/-- C1 (code bug evaluation): a configuration whose only line is a
domain header with zero IP/weight lines parses successfully, leaving the
domain in the map with an empty weight list; but the per-domain top-IP
set-up at the end of `updateWeights` then panics in both variants — the
deterministic selector indexes the empty weight list out of range, and
the randomized selector draws from `rand.Intn 0` — so the reload is not
well-defined, contrary to the claim. -/
theorem C1_header_only_reload_panics :
    (parseWeights false ("example.org")).2 = none
    ∧ (parseWeights false ("example.org")).1.domains
        = [(("example.org."), freshDomain false)]
    ∧ updateWeights (WeightedRR.mk [] none false) ("example.org") (fun _ => 0) = none
    ∧ updateWeights (WeightedRR.mk [] none true) ("example.org") (fun _ => 0) = none := by
  decide

/-- C4 (code bug evaluation): a two-token line whose weight token is the
integer 0 — outside [1,255] — is accepted by the parser (ParseUint with
bit size 8 accepts 0), and the weight 0 is stored in the table, contrary
to the claim and to the plugin README's stated range of [1,255]. -/
theorem C4_weight_zero_accepted :
    (parseWeights false ("example.org\n192.168.1.14 0")).2 = none
    ∧ (parseWeights false ("example.org\n192.168.1.14 0")).1.domains
        = [(("example.org."),
            { weights := [⟨ipv4 192 168 1 14, 0⟩]
              topIP := none
              updater := TopIPUpdater.determininsticWRR 0 0 })] := by
  decide

/-- C5 (counterexample): a configuration containing a two-token line
with no preceding domain header for which parsing fails with the "wrong
IP address" error rather than "missing domain name": the token
validation of the two-token case precedes the missing-domain check. -/
theorem C5_counterexample :
    (parseWeights false ("1.2.3.300 10")).2 = some (ParseErr.wrongIP ("1.2.3.300"))
    ∧ ParseErr.wrongIP ("1.2.3.300") ≠ ParseErr.missingDomain := by
  decide

/-- C5 (amended): for all configuration text whose first non-blank,
non-comment line is a two-token line, parsing fails; the error is
"missing domain name" exactly when the first token is a valid IP
literal and the second a valid weight value — with an invalid token, the
corresponding "wrong IP address" or "wrong weight value" error is
reported instead, because token validation precedes the missing-domain
check. -/
theorem C5_amended_first_line_ip_weight (isRandom : Bool) (content : String)
    (l : List Char) (ls : List (List Char)) (t1 t2 : List Char)
    (hl : effLines content = l :: ls) (hf : fieldsOf l = [t1, t2]) :
    (parseWeights isRandom content).2 =
      some (match parseIP t1 with
            | none => ParseErr.wrongIP (String.mk t1)
            | some _ =>
              match parseUint8 t2 with
              | none => ParseErr.wrongWeight (String.mk t2)
              | some _ => ParseErr.missingDomain) := by
  rw [parseWeights, hl]
  cases hip : parseIP t1 with
  | none => simp [parseWeightsAux, lineStep, hf, hip]
  | some ip =>
    cases hw : parseUint8 t2 with
    | none => simp [parseWeightsAux, lineStep, hf, hip, hw]
    | some v => simp [parseWeightsAux, lineStep, hf, hip, hw]

/-- Witness for C5 (amended): a comment line followed by a valid
IP/weight line with no header yields the missing-domain error. -/
theorem C5_amended_witness :
    (parseWeights false ("# note\n1.2.3.4 5")).2 = some ParseErr.missingDomain :=
  C5_amended_first_line_ip_weight false ("# note\n1.2.3.4 5")
    (String.data ("1.2.3.4 5")) [] (String.data ("1.2.3.4")) (String.data ("5"))
    (by decide) (by decide)

/-- C6: whenever no change can be applied — the queried domain is absent
from the table, or its weight list is empty, or the expected top IP does
not equal the address of any A/AAAA record of the answer's address
bucket — the reorder returns the input record list itself and the whole
table state unchanged, so no selector state advances. -/
theorem C6_no_match_passthrough (w : WeightedRR) (qname : String)
    (inRRs : List RR) (v : Nat)
    (h : lookupD w.domains qname = none
       ∨ (∃ d, lookupD w.domains qname = some d ∧ d.weights = [])
       ∨ (∃ d, lookupD w.domains qname = some d ∧
            ∀ r ∈ (classifyRRs inRRs).address, matchesTop d.topIP r = false)) :
    weightedRoundRobin w qname inRRs v = some (inRRs, w) := by
  rw [weightedRoundRobin]
  by_cases hb : (classifyRRs inRRs).address.isEmpty
  · simp [hb]
  · rcases h with h | ⟨d, hd, hw0⟩ | ⟨d, hd, hnm⟩
    · simp [hb, setTopRecord, h]
    · simp [hb, setTopRecord, hd, hw0]
    · by_cases hw0 : d.weights.isEmpty
      · simp [hb, setTopRecord, hd, hw0]
      · simp [hb, setTopRecord, hd, hw0, findTopIdx_eq_none _ _ hnm]

/-- Witness for C6: the expected top IP is absent from the only address
record, so the answer comes back as supplied and the state is kept. -/
theorem C6_witness :
    weightedRoundRobin
      (WeightedRR.mk
        [(("d."),
          Domain.mk [⟨ipv4 9 9 9 9, 1⟩] (some (ipv4 7 7 7 7))
            (TopIPUpdater.determininsticWRR 0 0))]
        none false)
      ("d.") [RR.a (ipv4 8 8 8 8) ("r1")] 0
    = some ([RR.a (ipv4 8 8 8 8) ("r1")],
        WeightedRR.mk
          [(("d."),
            Domain.mk [⟨ipv4 9 9 9 9, 1⟩] (some (ipv4 7 7 7 7))
              (TopIPUpdater.determininsticWRR 0 0))]
          none false) :=
  C6_no_match_passthrough _ _ _ _ (Or.inr (Or.inr ⟨_, rfl, by decide⟩))

/-- C7: whenever the reorder applies a change (the domain is configured
with a non-empty weight list and the scan finds the expected top address
at position itop of the address bucket), the returned record list is the
CNAME records, then the "other" records, then the address records with
the expected one swapped to the front of that bucket, then the MX
records — each bucket being the type-filtered input in input order,
except for that single swap. -/
theorem C7_change_output_order (w : WeightedRR) (qname : String)
    (inRRs : List RR) (v : Nat) (out : List RR) (w2 : WeightedRR)
    (d : Domain) (itop : Nat)
    (hd : lookupD w.domains qname = some d)
    (hnw : ¬ d.weights = [])
    (hfind : findTopIdx d.topIP (classifyRRs inRRs).address = some itop)
    (hret : weightedRoundRobin w qname inRRs v = some (out, w2)) :
    out = inRRs.filter isCNAMEb ++ inRRs.filter isRestb ++
      (if itop = 0 then inRRs.filter isAddressb
       else swapTop (inRRs.filter isAddressb) itop) ++
      inRRs.filter isMXb := by
  have hbne : ¬ (classifyRRs inRRs).address = [] := by
    intro h0
    rw [h0] at hfind
    simp [findTopIdx] at hfind
  have hbe : (classifyRRs inRRs).address.isEmpty = false := by
    simp [List.isEmpty_iff, hbne]
  have hwe : d.weights.isEmpty = false := by
    simp [List.isEmpty_iff, hnw]
  rw [weightedRoundRobin] at hret
  rw [setTopRecord, hd] at hret
  cases hnx : d.nextTopIP v with
  | none =>
    simp [hbe, hwe, hfind, hnx] at hret
  | some d' =>
    simp only [hbe, hwe, hfind, hnx, Bool.false_eq_true, if_false,
      Option.some.injEq, Prod.mk.injEq] at hret
    rw [← hret.1]
    simp [classifyRRs_eq_filters]

/-- Witness for C7: a mixed answer where the expected address sits at
position 1 of the address bucket; the output is CNAME, other, swapped
addresses, MX. -/
theorem C7_witness :
    ([RR.cname ("c"), RR.other 16 ("t"), RR.a (ipv4 9 9 9 9) ("r2"),
      RR.a (ipv4 8 8 8 8) ("r1"), RR.mx ("m")] : List RR) =
      ([RR.cname ("c"), RR.a (ipv4 8 8 8 8) ("r1"), RR.a (ipv4 9 9 9 9) ("r2"),
        RR.mx ("m"), RR.other 16 ("t")] : List RR).filter isCNAMEb ++
      ([RR.cname ("c"), RR.a (ipv4 8 8 8 8) ("r1"), RR.a (ipv4 9 9 9 9) ("r2"),
        RR.mx ("m"), RR.other 16 ("t")] : List RR).filter isRestb ++
      (if (1 : Nat) = 0 then
        ([RR.cname ("c"), RR.a (ipv4 8 8 8 8) ("r1"), RR.a (ipv4 9 9 9 9) ("r2"),
          RR.mx ("m"), RR.other 16 ("t")] : List RR).filter isAddressb
       else
        swapTop
          (([RR.cname ("c"), RR.a (ipv4 8 8 8 8) ("r1"), RR.a (ipv4 9 9 9 9) ("r2"),
             RR.mx ("m"), RR.other 16 ("t")] : List RR).filter isAddressb) 1) ++
      ([RR.cname ("c"), RR.a (ipv4 8 8 8 8) ("r1"), RR.a (ipv4 9 9 9 9) ("r2"),
        RR.mx ("m"), RR.other 16 ("t")] : List RR).filter isMXb :=
  C7_change_output_order
    (WeightedRR.mk
      [(("d."),
        Domain.mk [⟨ipv4 9 9 9 9, 1⟩] (some (ipv4 9 9 9 9))
          (TopIPUpdater.determininsticWRR 0 0))]
      none false)
    ("d.")
    [RR.cname ("c"), RR.a (ipv4 8 8 8 8) ("r1"), RR.a (ipv4 9 9 9 9) ("r2"),
     RR.mx ("m"), RR.other 16 ("t")]
    0
    [RR.cname ("c"), RR.other 16 ("t"), RR.a (ipv4 9 9 9 9) ("r2"),
     RR.a (ipv4 8 8 8 8) ("r1"), RR.mx ("m")]
    (WeightedRR.mk
      [(("d."),
        Domain.mk [⟨ipv4 9 9 9 9, 1⟩] (some (ipv4 9 9 9 9))
          (TopIPUpdater.determininsticWRR 0 0))]
      none false)
    (Domain.mk [⟨ipv4 9 9 9 9, 1⟩] (some (ipv4 9 9 9 9))
      (TopIPUpdater.determininsticWRR 0 0))
    1 (by decide) (by decide) (by decide) (by decide)

/-- An index with a value is inside the list. -/
theorem getElemQ_lt (l : List WeightItem) (i : Nat) (w : WeightItem)
    (h : l[i]? = some w) : i < l.length := by
  induction l generalizing i with
  | nil => simp at h
  | cons x xs ih =>
    cases i with
    | zero => simp
    | succ j =>
      simp only [List.getElem?_cons_succ] at h
      have := ih j h
      simp
      omega

/-- The element found at an index is a member of the list. -/
theorem getElemQ_mem (l : List WeightItem) (i : Nat) (w : WeightItem)
    (h : l[i]? = some w) : w ∈ l := by
  induction l generalizing i with
  | nil => simp at h
  | cons x xs ih =>
    cases i with
    | zero =>
      simp only [List.getElem?_cons_zero, Option.some.injEq] at h
      simp [h]
    | succ j =>
      simp only [List.getElem?_cons_succ] at h
      simp [ih j h]

/-- Every in-range index holds an element. -/
theorem getElemQ_exists (l : List WeightItem) (i : Nat) (h : i < l.length) :
    ∃ w, l[i]? = some w := by
  induction l generalizing i with
  | nil => simp at h
  | cons x xs ih =>
    cases i with
    | zero => exact ⟨x, by simp⟩
    | succ j =>
      simp only [List.length_cons] at h
      obtain ⟨w, hw⟩ := ih j (by omega)
      exact ⟨w, by simpa using hw⟩

/-- Cumulative weight of one more entry. -/
theorem cumW_succ (ws : List WeightItem) (i : Nat) (w : WeightItem)
    (h : ws[i]? = some w) : cumW ws (i + 1) = cumW ws i + w.value := by
  induction ws generalizing i with
  | nil => simp at h
  | cons x xs ih =>
    cases i with
    | zero =>
      simp only [List.getElem?_cons_zero, Option.some.injEq] at h
      simp [cumW, h]
    | succ j =>
      simp only [List.getElem?_cons_succ] at h
      simp [cumW, ih j h]
      omega

/-- The cumulative weight over the whole list is the weight sum. -/
theorem cumW_length (ws : List WeightItem) :
    cumW ws ws.length = totalWeight ws := by
  induction ws with
  | nil => rfl
  | cons x xs ih => simp [cumW, totalWeight, List.sum_cons] at ih ⊢; omega

/-- Cumulative weights never exceed the weight sum. -/
theorem cumW_le_total (ws : List WeightItem) (i : Nat) :
    cumW ws i ≤ totalWeight ws := by
  induction ws generalizing i with
  | nil => cases i <;> simp [cumW, totalWeight]
  | cons x xs ih =>
    cases i with
    | zero => simp [cumW]
    | succ j =>
      have := ih j
      simp [cumW, totalWeight, List.sum_cons] at this ⊢
      omega

/-- Strict bound: below an occupied index with positive weight, the
cumulative weight is strictly below the weight sum. -/
theorem cumW_lt_total (ws : List WeightItem) (i : Nat) (w : WeightItem)
    (h : ws[i]? = some w) (h1 : 1 ≤ w.value) :
    cumW ws i < totalWeight ws := by
  have hs := cumW_succ ws i w h
  have hle := cumW_le_total ws (i + 1)
  omega

/-- Position `cumW i + c` with `c` inside entry i's weight block is
covered by entry i. -/
theorem entryAt_cum (ws : List WeightItem) (i c : Nat) (w : WeightItem)
    (h : ws[i]? = some w) (hc : c < w.value) :
    entryAt ws (cumW ws i + c) = some w := by
  induction ws generalizing i with
  | nil => simp at h
  | cons x xs ih =>
    cases i with
    | zero =>
      simp only [List.getElem?_cons_zero, Option.some.injEq] at h
      subst h
      simp [cumW, entryAt, hc]
    | succ j =>
      simp only [List.getElem?_cons_succ] at h
      have := ih j h
      simp only [cumW, entryAt]
      rw [if_neg (by omega)]
      have harg : x.value + cumW xs j + c - x.value = cumW xs j + c := by omega
      rw [harg]
      exact this

/-- One deterministic step from a valid cursor state: it reports the
entry at the cursor and moves to a valid state whose block position is
the successor modulo the weight sum. -/
theorem detStep_run (ws : List WeightItem)
    (hw : ∀ w ∈ ws, 1 ≤ w.value ∧ w.value ≤ 255)
    (s : DetSt) (w : WeightItem)
    (hs : ws[s.index]? = some w) (hc : s.count < w.value) :
    ∃ s', detStep ws s = some (w.address, s')
      ∧ (∃ w', ws[s'.index]? = some w' ∧ s'.count < w'.value)
      ∧ cumW ws s'.index + s'.count
          = (cumW ws s.index + s.count + 1) % totalWeight ws := by
  have h255 : w.value ≤ 255 := (hw w (getElemQ_mem ws s.index w hs)).2
  have hcnt : (s.count + 1) % 256 = s.count + 1 := Nat.mod_eq_of_lt (by omega)
  have hidx : s.index < ws.length := getElemQ_lt ws s.index w hs
  rw [detStep, hs]
  simp only [hcnt]
  by_cases hfin : s.count + 1 = w.value
  · rw [if_pos hfin]
    by_cases hlt : s.index + 1 < ws.length
    · rw [if_pos hlt]
      obtain ⟨w', hw'⟩ := getElemQ_exists ws (s.index + 1) hlt
      have hpos : cumW ws (s.index + 1) = cumW ws s.index + s.count + 1 := by
        rw [cumW_succ ws s.index w hs]; omega
      have hlt2 : cumW ws (s.index + 1) < totalWeight ws :=
        cumW_lt_total ws (s.index + 1) w' hw'
          (hw w' (getElemQ_mem ws (s.index + 1) w' hw')).1
      refine ⟨⟨s.index + 1, 0⟩, rfl, ⟨w', hw',
        (hw w' (getElemQ_mem ws (s.index + 1) w' hw')).1⟩, ?_⟩
      simp only
      rw [← hpos, Nat.mod_eq_of_lt hlt2]
      omega
    · rw [if_neg hlt]
      have hlen : s.index + 1 = ws.length := by omega
      have hpos : cumW ws s.index + s.count + 1 = totalWeight ws := by
        have := cumW_succ ws s.index w hs
        rw [hlen, cumW_length] at this
        omega
      have hlen0 : 0 < ws.length := by omega
      obtain ⟨w0, hw0⟩ := getElemQ_exists ws 0 hlen0
      refine ⟨⟨0, 0⟩, rfl, ⟨w0, hw0, (hw w0 (getElemQ_mem ws 0 w0 hw0)).1⟩, ?_⟩
      simp only [cumW]
      rw [hpos, Nat.mod_self]
  · rw [if_neg hfin]
    have hc' : s.count + 1 < w.value := by omega
    have hlt2 : cumW ws s.index + (s.count + 1) < totalWeight ws := by
      have := cumW_succ ws s.index w hs
      have := cumW_le_total ws (s.index + 1)
      omega
    refine ⟨⟨s.index, s.count + 1⟩, rfl, ⟨w, hs, hc'⟩, ?_⟩
    simp only
    rw [Nat.mod_eq_of_lt (by omega)]
    omega

/-- Run of the deterministic selector from any valid cursor state: the
k-th reported IP is the address of the entry covering block position
`start + k` modulo the weight sum. -/
theorem detNth_run (ws : List WeightItem)
    (hw : ∀ w ∈ ws, 1 ≤ w.value ∧ w.value ≤ 255) :
    ∀ (k : Nat) (s : DetSt) (w : WeightItem),
      ws[s.index]? = some w → s.count < w.value →
      (detNth ws s k).map Prod.fst
        = (entryAt ws ((cumW ws s.index + s.count + k) % totalWeight ws)).map
            WeightItem.address := by
  intro k
  induction k with
  | zero =>
    intro s w hs hc
    obtain ⟨s', hstep, _, _⟩ := detStep_run ws hw s w hs hc
    have hlt : cumW ws s.index + s.count < totalWeight ws := by
      have := cumW_succ ws s.index w hs
      have := cumW_le_total ws (s.index + 1)
      omega
    rw [detNth, hstep]
    rw [Nat.add_zero, Nat.mod_eq_of_lt hlt, entryAt_cum ws s.index s.count w hs hc]
    rfl
  | succ k ih =>
    intro s w hs hc
    obtain ⟨s', hstep, ⟨w', hw', hc'⟩, hpos⟩ := detStep_run ws hw s w hs hc
    rw [detNth, hstep]
    have harg : cumW ws s.index + s.count + 1 + k
        = cumW ws s.index + s.count + (k + 1) := by omega
    rw [ih s' w' hw' hc', hpos, Nat.mod_add_mod, harg]

/-- C2: started from index 0 and count 0 on a weight list of uint8
weights in [1,255], the deterministic selector produces exactly the
periodic block sequence: the k-th expected top IP is the address of the
entry covering position k modulo the weight sum — ip 0 for the first
w 0 calls, then ip 1 for w 1 calls, and so on, wrapping indefinitely;
it depends only on k and the weight list. -/
theorem C2_deterministic_periodic (ws : List WeightItem)
    (hne : ws ≠ [])
    (hw : ∀ w ∈ ws, 1 ≤ w.value ∧ w.value ≤ 255) (k : Nat) :
    (detNth ws ⟨0, 0⟩ k).map Prod.fst
      = (entryAt ws (k % totalWeight ws)).map WeightItem.address := by
  obtain ⟨w0, ws', rfl⟩ : ∃ w0 ws', ws = w0 :: ws' := by
    cases ws with
    | nil => exact absurd rfl hne
    | cons a l => exact ⟨a, l, rfl⟩
  have h0 : (w0 :: ws')[0]? = some w0 := by simp
  have := detNth_run (w0 :: ws') hw k ⟨0, 0⟩ w0 h0
    (hw w0 (by simp)).1
  simpa [cumW] using this

/-- Witness for C2: weights [(ip1,2),(ip2,1)]; the fourth call (k = 3)
reports the entry covering position 3 mod 3 = 0, i.e. ip1 again. -/
theorem C2_witness :
    (detNth [⟨ipv4 1 1 1 1, 2⟩, ⟨ipv4 2 2 2 2, 1⟩] ⟨0, 0⟩ 3).map Prod.fst
      = (entryAt [⟨ipv4 1 1 1 1, 2⟩, ⟨ipv4 2 2 2 2, 1⟩]
          (3 % totalWeight [⟨ipv4 1 1 1 1, 2⟩, ⟨ipv4 2 2 2 2, 1⟩])).map
          WeightItem.address :=
  C2_deterministic_periodic [⟨ipv4 1 1 1 1, 2⟩, ⟨ipv4 2 2 2 2, 1⟩]
    (by decide) (by decide) 3

/-- The randomized walk with accumulated partial sum `psum` and starting
index `i0` selects, for draws below the remaining weight mass, exactly
the entry covering position `v - psum` of the weight blocks. -/
theorem rselect_eq_entryIdx (ws : List WeightItem) :
    ∀ (v psum i0 : Nat), psum ≤ v → v < psum + totalWeight ws →
      (rselect v ws psum i0).map Prod.fst = (entryIdx ws (v - psum)).map (· + i0) := by
  induction ws with
  | nil =>
    intro v psum i0 h1 h2
    simp [totalWeight] at h2
    omega
  | cons w rest ih =>
    intro v psum i0 h1 h2
    cases rest with
    | nil =>
      have hv : v - psum < w.value := by
        simp [totalWeight] at h2
        omega
      rw [show rselect v [w] psum i0 = some (i0, w) from rfl]
      rw [entryIdx, if_pos hv]
      simp
    | cons r rs =>
      rw [show rselect v (w :: r :: rs) psum i0
            = if v < psum + w.value then some (i0, w)
              else rselect v (r :: rs) (psum + w.value) (i0 + 1) from rfl]
      by_cases hv : v < psum + w.value
      · rw [if_pos hv, entryIdx, if_pos (by omega)]
        simp
      · rw [if_neg hv]
        have h2' : v < psum + w.value + totalWeight (r :: rs) := by
          simp [totalWeight, List.sum_cons] at h2 ⊢
          omega
        have harg : v - psum - w.value = v - (psum + w.value) := by omega
        have hrhs : entryIdx (w :: r :: rs) (v - psum)
            = (entryIdx (r :: rs) (v - (psum + w.value))).map (· + 1) := by
          rw [entryIdx, if_neg (by omega), harg]
        rw [hrhs, ih v (psum + w.value) (i0 + 1) (by omega) h2']
        cases entryIdx (r :: rs) (v - (psum + w.value)) with
        | none => rfl
        | some j => simp; omega

/-- The entry covering a position below the weight sum is exactly the
one whose cumulative-weight interval contains the position. -/
theorem entryIdx_interval (ws : List WeightItem) :
    ∀ (p i : Nat), p < totalWeight ws →
      (entryIdx ws p = some i ↔ cumW ws i ≤ p ∧ p < cumW ws (i + 1)) := by
  induction ws with
  | nil =>
    intro p i hp
    simp [totalWeight] at hp
  | cons w rest ih =>
    intro p i hp
    by_cases hv : p < w.value
    · rw [entryIdx, if_pos hv]
      cases i with
      | zero =>
        simp [cumW]
        omega
      | succ j =>
        simp only [cumW, Option.some.injEq]
        constructor
        · intro h; omega
        · intro h; omega
    · rw [entryIdx, if_neg hv]
      cases i with
      | zero =>
        simp only [cumW, Option.map_eq_some']
        constructor
        · rintro ⟨a, _, ha⟩; omega
        · intro h; omega
      | succ j =>
        have hp' : p - w.value < totalWeight rest := by
          simp [totalWeight, List.sum_cons] at hp ⊢
          omega
        have := ih (p - w.value) j hp'
        simp only [cumW, Option.map_eq_some']
        constructor
        · rintro ⟨a, ha, haj⟩
          have : a = j := by omega
          subst this
          have h2 := (ih (p - w.value) a hp').mp ha
          omega
        · intro h
          refine ⟨j, ?_, rfl⟩
          exact (ih (p - w.value) j hp').mpr (by omega)

/-- C3: for a weight list with entry `w` at position i, the randomized
selector's walk selects entry i exactly when the drawn value v lies in
the interval [cumW i, cumW (i+1)); hence among the totalWeight possible
draw values exactly `w.value` select entry i, which is weighted
sampling: under a uniform draw each entry is chosen with probability
value / totalWeight on each independent call. -/
theorem C3_randomized_weighted_sampling (ws : List WeightItem) (i : Nat)
    (w : WeightItem) (hi : ws[i]? = some w) :
    (∀ v, v < totalWeight ws →
      ((rselect v ws 0 0).map Prod.fst = some i ↔
        cumW ws i ≤ v ∧ v < cumW ws (i + 1)))
    ∧ ((Finset.range (totalWeight ws)).filter
        (fun v => (rselect v ws 0 0).map Prod.fst = some i)).card = w.value := by
  have hiff : ∀ v, v < totalWeight ws →
      ((rselect v ws 0 0).map Prod.fst = some i ↔
        cumW ws i ≤ v ∧ v < cumW ws (i + 1)) := by
    intro v hv
    rw [rselect_eq_entryIdx ws v 0 0 (by omega) (by omega)]
    have hsub : v - 0 = v := by omega
    rw [hsub]
    constructor
    · intro h
      obtain ⟨a, ha, hai⟩ := Option.map_eq_some'.mp h
      have : a = i := by omega
      subst this
      exact (entryIdx_interval ws v a hv).mp ha
    · intro h
      have := (entryIdx_interval ws v i hv).mpr h
      rw [this]
      simp
  refine ⟨hiff, ?_⟩
  have hset : (Finset.range (totalWeight ws)).filter
      (fun v => (rselect v ws 0 0).map Prod.fst = some i)
      = Finset.Ico (cumW ws i) (cumW ws (i + 1)) := by
    apply Finset.ext
    intro v
    simp only [Finset.mem_filter, Finset.mem_range, Finset.mem_Ico]
    constructor
    · rintro ⟨hv, heq⟩
      exact (hiff v hv).mp heq
    · intro h
      have hv : v < totalWeight ws :=
        lt_of_lt_of_le h.2 (cumW_le_total ws (i + 1))
      exact ⟨hv, (hiff v hv).mpr h⟩
  rw [hset, Nat.card_Ico, cumW_succ ws i w hi]
  omega

/-- Witness for C3 at weights [(ip1,2),(ip2,1)] and entry 1: draws 0 and
1 select entry 0, draw 2 selects entry 1, so entry 1 is chosen by
exactly 1 of the 3 draw values. -/
theorem C3_witness :
    (∀ v, v < totalWeight [⟨ipv4 1 1 1 1, 2⟩, ⟨ipv4 2 2 2 2, 1⟩] →
      ((rselect v [⟨ipv4 1 1 1 1, 2⟩, ⟨ipv4 2 2 2 2, 1⟩] 0 0).map Prod.fst = some 1 ↔
        cumW [⟨ipv4 1 1 1 1, 2⟩, ⟨ipv4 2 2 2 2, 1⟩] 1 ≤ v ∧
        v < cumW [⟨ipv4 1 1 1 1, 2⟩, ⟨ipv4 2 2 2 2, 1⟩] 2))
    ∧ ((Finset.range (totalWeight [⟨ipv4 1 1 1 1, 2⟩, ⟨ipv4 2 2 2 2, 1⟩])).filter
        (fun v => (rselect v [⟨ipv4 1 1 1 1, 2⟩, ⟨ipv4 2 2 2 2, 1⟩] 0 0).map
            Prod.fst = some 1)).card = 1 :=
  C3_randomized_weighted_sampling [⟨ipv4 1 1 1 1, 2⟩, ⟨ipv4 2 2 2 2, 1⟩] 1
    ⟨ipv4 2 2 2 2, 1⟩ (by decide)

end LoadBalance
